import Mathlib

/-!
Shallow embedding of the screen-streaming pipeline of this repository
(Python sources under src/): the bounded drop queues used by every stage,
the UDP fragmentation step of the transport, codec probing/selection,
discovery de-duplication, the control-command handler, and the two
input-sender variants with their coordinate scaling.

Bytes are modelled as natural numbers, Python ints as `Int`, Python float
division on small integer operands as exact rational division, and Python
strings (where character-level reasoning is needed) as `List Char`.
A Python function that can raise is modelled with `Option`/`Except`.
-/

namespace ScreenStream

/-! ### Bounded drop queues

Every queue in the pipeline is a `queue.Queue(maxsize=cap)` written to with
the pattern `if not q.full(): q.put_nowait(item)` (src/Capture.py lines
242-246, src/Host/encoder.py lines 195-196 and 208-212, src/network.py
lines 194-198, src/Client/receive.py lines 163-167).  `put_nowait` behind
the `full()` guard returns without blocking; when the queue is full the
incoming item is simply not enqueued. -/

/-- One producer push: `if not q.full(): q.put_nowait(x)`.  The queue keeps
its FIFO contents; a push into a full queue returns the queue unchanged. -/
def queuePush (cap : Nat) (q : List α) (x : α) : List α :=
  if q.length < cap then q ++ [x] else q

/-- A whole sequence of producer pushes, oldest first. -/
def queuePushAll (cap : Nat) (q : List α) (xs : List α) : List α :=
  xs.foldl (queuePush cap) q

theorem queuePush_of_full (cap : Nat) (q : List α) (x : α)
    (h : cap ≤ q.length) : queuePush cap q x = q := by
  simp [queuePush, Nat.not_lt.mpr h]

theorem queuePushAll_of_full (cap : Nat) (q : List α) (xs : List α)
    (h : cap ≤ q.length) : queuePushAll cap q xs = q := by
  induction xs with
  | nil => rfl
  | cons x xs ih =>
      simp only [queuePushAll, List.foldl_cons] at *
      rw [queuePush_of_full cap q x h, ih]

theorem queuePushAll_eq_append_take (cap : Nat) (q : List α) (xs : List α)
    (h : q.length ≤ cap) :
    queuePushAll cap q xs = q ++ xs.take (cap - q.length) := by
  induction xs generalizing q with
  | nil => simp [queuePushAll]
  | cons x xs ih =>
      simp only [queuePushAll, List.foldl_cons]
      by_cases hl : q.length < cap
      · have hcap : (q ++ [x]).length ≤ cap := by
          simp only [List.length_append, List.length_cons, List.length_nil]
          omega
        have := ih (q ++ [x]) hcap
        simp only [queuePushAll] at this
        rw [queuePush, if_pos hl, this]
        have hsub : cap - q.length = (cap - (q.length + 1)) + 1 := by omega
        simp only [List.length_append, List.length_cons, List.length_nil,
          Nat.add_zero, hsub, List.take_succ_cons, List.append_assoc,
          List.singleton_append]
      · have hfull : cap ≤ q.length := Nat.not_lt.mp hl
        have hq : q.length = cap := Nat.le_antisymm h hfull
        rw [queuePush_of_full cap q x hfull]
        have : queuePushAll cap q xs = q := queuePushAll_of_full cap q xs hfull
        simp only [queuePushAll] at this
        rw [this, hq, Nat.sub_self, List.take_zero, List.append_nil]

/-- Starting from an empty queue, a sequence of pushes leaves the queue
holding the **earliest** `cap` items pushed: `take cap`, not the most
recent ones. -/
theorem queuePushAll_nil (cap : Nat) (xs : List α) :
    queuePushAll cap [] xs = xs.take cap := by
  simpa using queuePushAll_eq_append_take cap [] xs (by simp)

/-! ### Transport fragmentation

`EnhancedStreamer._send_fragmented` (src/network.py lines 178-190):

    total_size = len(data)
    num_fragments = (total_size + self.mtu_size - 1) // self.mtu_size
    for i in range(num_fragments):
        start = i * self.mtu_size
        end = min(start + self.mtu_size, total_size)
        fragment = data[start:end]
        header = struct.pack('!HHH', 0, i, num_fragments)
        self._send_packet(header + fragment)

`struct.pack('!H', v)` encodes `v` as two big-endian bytes and raises
`struct.error` when `v` is not in `0..65535`; an exception aborts the loop
(it propagates to the caller), so the datagrams emitted are the ones sent
before the first failing pack. -/

/-- `struct.pack('!H', n)`: two big-endian bytes, or failure when
`n > 65535` (arguments here are always non-negative). -/
def packU16BE (n : Nat) : Option (List Nat) :=
  if n ≤ 65535 then some [n / 256, n % 256] else none

/-- `struct.pack('!HHH', seq, idx, cnt)`. -/
def packHeaderHHH (seq idx cnt : Nat) : Option (List Nat) :=
  match packU16BE seq, packU16BE idx, packU16BE cnt with
  | some a, some b, some c => some (a ++ b ++ c)
  | _, _, _ => none

/-- The six header bytes `struct.pack('!HHH', 0, idx, cnt)` produces when
both fields are in range. -/
def fragHeader (idx cnt : Nat) : List Nat :=
  [0, 0, idx / 256, idx % 256, cnt / 256, cnt % 256]

/-- The `for i in range(num_fragments)` loop of `_send_fragmented`,
as the list of datagrams actually handed to `_send_packet`; `fuel`
counts the remaining iterations and a header-pack failure aborts the
loop with no further datagrams. -/
def fragmentsFrom (data : List Nat) (mtu n : Nat) : Nat → Nat → List (List Nat)
  | _, 0 => []
  | i, fuel + 1 =>
    match packHeaderHHH 0 i n with
    | none => []
    | some h => (h ++ (data.drop (i * mtu)).take mtu) ::
        fragmentsFrom data mtu n (i + 1) fuel

/-- `num_fragments = (total_size + self.mtu_size - 1) // self.mtu_size`. -/
def numFragments (mtu total : Nat) : Nat := (total + mtu - 1) / mtu

/-- `EnhancedStreamer._send_fragmented(data)`: the list of datagrams
emitted on the wire. -/
def sendFragmented (mtu : Nat) (data : List Nat) : List (List Nat) :=
  fragmentsFrom data mtu (numFragments mtu data.length) 0
    (numFragments mtu data.length)

theorem packHeaderHHH_eq (idx cnt : Nat) (hi : idx ≤ 65535) (hc : cnt ≤ 65535) :
    packHeaderHHH 0 idx cnt = some (fragHeader idx cnt) := by
  simp [packHeaderHHH, packU16BE, hi, hc, fragHeader]

theorem fragmentsFrom_length (data : List Nat) (mtu n : Nat)
    (hn : n ≤ 65535) :
    ∀ fuel i, i + fuel ≤ n →
      (fragmentsFrom data mtu n i fuel).length = fuel := by
  intro fuel
  induction fuel with
  | zero => intro i _; rfl
  | succ fuel ih =>
      intro i hi
      rw [fragmentsFrom, packHeaderHHH_eq i n (by omega) hn]
      simp only [List.length_cons]
      rw [ih (i + 1) (by omega)]

theorem fragmentsFrom_get (data : List Nat) (mtu n : Nat)
    (hn : n ≤ 65535) :
    ∀ fuel i j, i + fuel ≤ n → j < fuel →
      (fragmentsFrom data mtu n i fuel).get? j =
        some (fragHeader (i + j) n ++ (data.drop ((i + j) * mtu)).take mtu) := by
  intro fuel
  induction fuel with
  | zero => intro i j _ hj; omega
  | succ fuel ih =>
      intro i j hi hj
      rw [fragmentsFrom, packHeaderHHH_eq i n (by omega) hn]
      cases j with
      | zero => simp
      | succ j =>
          simp only [List.get?_cons_succ]
          rw [ih (i + 1) j (by omega) (by omega)]
          have h1 : i + 1 + j = i + (j + 1) := by omega
          rw [h1]

theorem fragmentsFrom_payloads (data : List Nat) (mtu n : Nat)
    (hn : n ≤ 65535) :
    ∀ fuel i, i + fuel ≤ n →
      (fragmentsFrom data mtu n i fuel).map (fun d => d.drop 6) =
        (List.range fuel).map (fun j => (data.drop ((i + j) * mtu)).take mtu) := by
  intro fuel
  induction fuel with
  | zero => intro i _; rfl
  | succ fuel ih =>
      intro i hi
      have hhead : (fragHeader i n ++ (data.drop (i * mtu)).take mtu).drop 6
          = (data.drop (i * mtu)).take mtu := by
        have h6 : (fragHeader i n).length = 6 := rfl
        rw [← h6, List.drop_left]
      have htail := ih (i + 1) (by omega)
      have hmap : (List.range fuel).map
            (fun j => (data.drop ((i + 1 + j) * mtu)).take mtu)
          = (List.range fuel).map
            ((fun j => (data.drop ((i + j) * mtu)).take mtu) ∘ Nat.succ) := by
        apply List.map_congr_left
        intro j _
        have h1 : i + 1 + j = i + Nat.succ j := by omega
        simp [Function.comp, h1]
      rw [fragmentsFrom, packHeaderHHH_eq i n (by omega) hn]
      rw [List.range_succ_eq_map]
      simp only [List.map_cons, List.map_map, hhead, htail, hmap]
      simp

/-- Concatenating the `mtu`-sized slices `data[i*mtu : (i+1)*mtu]` for
`i` in `range n` recovers `data` whenever `n*mtu` covers the whole list. -/
theorem join_slices (mtu : Nat) :
    ∀ (n : Nat) (data : List Nat), data.length ≤ n * mtu →
      ((List.range n).map (fun j => (data.drop (j * mtu)).take mtu)).flatten = data := by
  intro n
  induction n with
  | zero =>
      intro data h
      simp only [Nat.zero_mul, Nat.le_zero, List.length_eq_zero] at h
      simp [h]
  | succ n ih =>
      intro data h
      rw [List.range_succ_eq_map]
      simp only [List.map_cons, List.map_map, List.flatten_cons, Nat.zero_mul,
        List.drop_zero]
      have hrw : ((List.range n).map ((fun j => (data.drop (j * mtu)).take mtu) ∘ Nat.succ)) =
          (List.range n).map (fun j => ((data.drop mtu).drop (j * mtu)).take mtu) := by
        apply List.map_congr_left
        intro j _
        have h2 : (data.drop mtu).drop (j * mtu) = data.drop (Nat.succ j * mtu) := by
          rw [List.drop_drop]
          congr 1
          rw [Nat.succ_mul]
          omega
        simp only [Function.comp_apply, h2]
      have hlen : (data.drop mtu).length ≤ n * mtu := by
        have hsm : (n + 1) * mtu = n * mtu + mtu := by ring
        rw [hsm] at h
        simp only [List.length_drop]
        omega
      rw [hrw, ih (data.drop mtu) hlen]
      exact List.take_append_drop mtu data

theorem le_numFragments_mul (mtu total : Nat) (hm : 0 < mtu) :
    total ≤ numFragments mtu total * mtu := by
  unfold numFragments
  have hd := Nat.div_add_mod (total + mtu - 1) mtu
  have hr := Nat.mod_lt (total + mtu - 1) hm
  have hc : (total + mtu - 1) / mtu * mtu = mtu * ((total + mtu - 1) / mtu) :=
    Nat.mul_comm _ _
  omega

/-- C1 (amended): for a payload longer than the MTU whose fragment count
fits in an unsigned 16-bit field, `_send_fragmented` emits exactly
`ceil(S/MTU)` datagrams in fragment-index order, the `j`-th prefixed with
the six header bytes `struct.pack('!HHH', 0, j, count)`, and the
concatenation of the payload slices in index order is the original
payload.  (The claim's unrestricted form fails when the fragment count
exceeds 65535: see the counterexample.) -/
theorem c1_fragmentation_amended (mtu : Nat) (data : List Nat)
    (hm : 0 < mtu) (_hlen : mtu < data.length)
    (hn : numFragments mtu data.length ≤ 65535) :
    (sendFragmented mtu data).length = numFragments mtu data.length ∧
    (∀ j, j < numFragments mtu data.length →
      (sendFragmented mtu data).get? j =
        some (fragHeader j (numFragments mtu data.length) ++
          (data.drop (j * mtu)).take mtu)) ∧
    ((sendFragmented mtu data).map (fun d => d.drop 6)).flatten = data := by
  refine ⟨?_, ?_, ?_⟩
  · exact fragmentsFrom_length data mtu _ hn _ 0 (by omega)
  · intro j hj
    have h := fragmentsFrom_get data mtu _ hn _ 0 j (by omega) hj
    simpa using h
  · rw [sendFragmented, fragmentsFrom_payloads data mtu _ hn _ 0 (by omega)]
    simp only [Nat.zero_add]
    exact join_slices mtu _ data (le_numFragments_mul mtu data.length hm)

/-- C1, witness for the amended theorem: a 7-byte payload with MTU 3
fragments into ceil(7/3) = 3 datagrams that reassemble to the payload. -/
theorem c1_fragmentation_amended_witness :
    (0 < 3 ∧ 3 < (7 : Nat) ∧ numFragments 3 7 ≤ 65535) ∧
    (sendFragmented 3 [1, 2, 3, 4, 5, 6, 7]).length = 3 ∧
    ((sendFragmented 3 [1, 2, 3, 4, 5, 6, 7]).map (fun d => d.drop 6)).flatten
      = [1, 2, 3, 4, 5, 6, 7] := by
  refine ⟨⟨by decide, by decide, by decide⟩, ?_, ?_⟩
  · exact (c1_fragmentation_amended 3 [1, 2, 3, 4, 5, 6, 7]
      (by decide) (by decide) (by decide)).1
  · exact (c1_fragmentation_amended 3 [1, 2, 3, 4, 5, 6, 7]
      (by decide) (by decide) (by decide)).2.2

/-- C1 counterexample: a payload of 91,749,001 bytes with MTU 1400 would
need 65,536 fragments; `struct.pack('!H', 65536)` raises on the very
first loop iteration, so the fragmentation step emits zero datagrams
instead of the `ceil(S/MTU) = 65536` the claim requires. -/
theorem c1_counterexample :
    1400 < (List.replicate 91749001 (0 : Nat)).length ∧
    numFragments 1400 (List.replicate 91749001 (0 : Nat)).length = 65536 ∧
    sendFragmented 1400 (List.replicate 91749001 (0 : Nat)) = [] ∧
    (65536 : Nat) ≠ 0 := by
  have hlen : (List.replicate 91749001 (0 : Nat)).length = 91749001 :=
    List.length_replicate 91749001 0
  have hn : numFragments 1400 (List.replicate 91749001 (0 : Nat)).length = 65536 := by
    rw [hlen]; norm_num [numFragments]
  refine ⟨by rw [hlen]; norm_num, hn, ?_, by norm_num⟩
  rw [sendFragmented, hn]
  have h1 : (65536 : Nat) = 65535 + 1 := rfl
  rw [h1, fragmentsFrom]
  have hp : packHeaderHHH 0 0 (65535 + 1) = none := by decide
  rw [hp]

theorem packHeaderHHH_take2 (idx cnt : Nat) (h : List Nat)
    (hp : packHeaderHHH 0 idx cnt = some h) : h.take 2 = [0, 0] := by
  have h0 : packU16BE 0 = some [0, 0] := rfl
  unfold packHeaderHHH at hp
  rw [h0] at hp
  cases hbi : packU16BE idx with
  | none => rw [hbi] at hp; simp at hp
  | some b =>
      cases hcn : packU16BE cnt with
      | none => rw [hbi, hcn] at hp; simp at hp
      | some c =>
          rw [hbi, hcn] at hp
          simp only [Option.some.injEq] at hp
          rw [← hp]
          simp

theorem fragmentsFrom_take2 (data : List Nat) (mtu n : Nat) :
    ∀ fuel i d, d ∈ fragmentsFrom data mtu n i fuel → d.take 2 = [0, 0] := by
  intro fuel
  induction fuel with
  | zero => intro i d h; simp [fragmentsFrom] at h
  | succ fuel ih =>
      intro i d h
      rw [fragmentsFrom] at h
      cases hp : packHeaderHHH 0 i n with
      | none => rw [hp] at h; simp at h
      | some hdr =>
          rw [hp] at h
          simp only [List.mem_cons] at h
          rcases h with rfl | h
          · have h2 := packHeaderHHH_take2 i n hdr hp
            have hlen : 2 ≤ hdr.length := by
              have hl := congrArg List.length h2
              simp at hl
              omega
            rw [List.take_append_eq_append_take, h2,
              Nat.sub_eq_zero_of_le hlen, List.take_zero, List.append_nil]
          · exact ih (i + 1) d h

/-- C4 (amended): every datagram `_send_fragmented` ever emits carries the
constant `packet_sequence = 0` in its first two header bytes — so all
fragments of one packet do share `packet_sequence`, but the transport
assigns no monotonically increasing sequence number and fragments of two
distinct packets carry the **same** `packet_sequence` value (0), not
distinct ones. -/
theorem c4_packet_sequence_amended (mtu : Nat) (data d : List Nat)
    (hd : d ∈ sendFragmented mtu data) : d.take 2 = [0, 0] :=
  fragmentsFrom_take2 data mtu _ _ 0 d hd

/-- C4, witness: a concrete fragment of a concrete oversized payload has
header bytes starting `0, 0`. -/
theorem c4_packet_sequence_amended_witness :
    [0, 0, 0, 0, 0, 3, 1, 2, 3] ∈ sendFragmented 3 [1, 2, 3, 4, 5, 6, 7] ∧
    List.take 2 [0, 0, 0, 0, 0, 3, 1, 2, 3] = [0, 0] :=
  ⟨by decide, c4_packet_sequence_amended 3 [1, 2, 3, 4, 5, 6, 7]
    [0, 0, 0, 0, 0, 3, 1, 2, 3] (by decide)⟩

set_option maxRecDepth 10000 in
/-- C4 counterexample: two distinct oversized packets are both fragmented,
yet the `packet_sequence` bytes of their fragments are identical (`0, 0`),
refuting the claim that fragments of two distinct packets carry distinct
`packet_sequence` values. -/
theorem c4_counterexample :
    sendFragmented 1400 (List.replicate 1401 (1 : Nat)) ≠ [] ∧
    sendFragmented 1400 (List.replicate 1401 (2 : Nat)) ≠ [] ∧
    List.replicate 1401 (1 : Nat) ≠ List.replicate 1401 (2 : Nat) ∧
    ((sendFragmented 1400 (List.replicate 1401 (1 : Nat))).headD []).take 2 =
      ((sendFragmented 1400 (List.replicate 1401 (2 : Nat))).headD []).take 2 := by
  refine ⟨?_, ?_, by decide, ?_⟩ <;> decide

/-! ### Codec probing and selection

`CrossPlatformEncoder._select_windows_encoder` / `_select_linux_encoder`
(src/Host/encoder.py lines 44-61 and 72-88) and
`CrossPlatformVideoReceiver._get_linux_decoder` / `_get_windows_decoder`
(src/Client/receive.py lines 53-72 and 74-90) all walk an ordered
candidate list, return the first candidate whose `av.CodecContext.create`
probe succeeds, and fall back to the software codec after the loop.
The probe outcome is abstracted as a boolean function on codec names. -/

/-- `for c in candidates: try open(c); return c; except: continue` then
`return fallback`. -/
def probeSelect (probe : String → Bool) : List String → String → String
  | [], fallback => fallback
  | c :: rest, fallback => if probe c then c else probeSelect probe rest fallback

def windowsEncoderCandidates : List String :=
  ["h264_nvenc", "h264_amf", "h264_qsv", "h264_mf"]

def linuxEncoderCandidates : List String :=
  ["h264_vaapi", "h264_nvenc", "h264_omx"]

def linuxDecoderCandidates : List String :=
  ["h264_vaapi", "h264_v4l2m2m", "h264_mmal", "h264_cuvid"]

def windowsDecoderCandidates : List String :=
  ["h264_cuvid", "h264_d3d11va", "h264_dxva2"]

def select_windows_encoder (probe : String → Bool) : String :=
  probeSelect probe windowsEncoderCandidates "libx264"

def select_linux_encoder (probe : String → Bool) : String :=
  probeSelect probe linuxEncoderCandidates "libx264"

def get_linux_decoder (probe : String → Bool) : String :=
  probeSelect probe linuxDecoderCandidates "h264"

def get_windows_decoder (probe : String → Bool) : String :=
  probeSelect probe windowsDecoderCandidates "h264"

theorem probeSelect_eq_find (probe : String → Bool) (l : List String)
    (fallback : String) :
    probeSelect probe l fallback = (l.find? probe).getD fallback := by
  induction l with
  | nil => rfl
  | cons c rest ih =>
      rw [probeSelect, List.find?_cons]
      cases hc : probe c with
      | true => simp
      | false => simpa using ih

/-- C6: for every outcome of the hardware-codec probes, selection returns
the first candidate that opens; when every hardware candidate fails, the
encoder selectors return `libx264` and the decoder selectors return
`h264`, unconditionally. -/
theorem c6_codec_selection (probe : String → Bool) :
    ((∀ c ∈ windowsEncoderCandidates, probe c = false) →
      select_windows_encoder probe = "libx264") ∧
    (∀ c, windowsEncoderCandidates.find? probe = some c →
      select_windows_encoder probe = c) ∧
    ((∀ c ∈ linuxDecoderCandidates, probe c = false) →
      get_linux_decoder probe = "h264") ∧
    (∀ c, linuxDecoderCandidates.find? probe = some c →
      get_linux_decoder probe = c) ∧
    ((∀ c ∈ linuxEncoderCandidates, probe c = false) →
      select_linux_encoder probe = "libx264") ∧
    ((∀ c ∈ windowsDecoderCandidates, probe c = false) →
      get_windows_decoder probe = "h264") := by
  have hnone : ∀ (l : List String), (∀ c ∈ l, probe c = false) → l.find? probe = none := by
    intro l hl
    rw [List.find?_eq_none]
    intro x hx
    simp [hl x hx]
  refine ⟨?_, ?_, ?_, ?_, ?_, ?_⟩
  · intro h
    rw [select_windows_encoder, probeSelect_eq_find, hnone _ h]
    rfl
  · intro c hc
    rw [select_windows_encoder, probeSelect_eq_find, hc]
    rfl
  · intro h
    rw [get_linux_decoder, probeSelect_eq_find, hnone _ h]
    rfl
  · intro c hc
    rw [get_linux_decoder, probeSelect_eq_find, hc]
    rfl
  · intro h
    rw [select_linux_encoder, probeSelect_eq_find, hnone _ h]
    rfl
  · intro h
    rw [get_windows_decoder, probeSelect_eq_find, hnone _ h]
    rfl

/-- C6, witness: with every probe failing, selection falls back to the
software codecs; with a probe that accepts `h264_qsv`, the windows encoder
selector returns it (the first succeeding candidate). -/
theorem c6_codec_selection_witness :
    select_windows_encoder (fun _ => false) = "libx264" ∧
    get_linux_decoder (fun _ => false) = "h264" ∧
    select_linux_encoder (fun _ => false) = "libx264" ∧
    get_windows_decoder (fun _ => false) = "h264" ∧
    select_windows_encoder (fun s => s == "h264_qsv") = "h264_qsv" := by
  refine ⟨?_, ?_, ?_, ?_, ?_⟩
  · exact (c6_codec_selection (fun _ => false)).1 (by intro c _; rfl)
  · exact (c6_codec_selection (fun _ => false)).2.2.1 (by intro c _; rfl)
  · exact (c6_codec_selection (fun _ => false)).2.2.2.2.1 (by intro c _; rfl)
  · exact (c6_codec_selection (fun _ => false)).2.2.2.2.2 (by intro c _; rfl)
  · exact (c6_codec_selection (fun s => s == "h264_qsv")).2.1 "h264_qsv" (by decide)

/-! ### Discovery de-duplication

`DiscoveryProtocol.parse_broadcast_message` and
`NetworkDiscovery._discovery_loop` (src/Client/main.py lines 19-27 and
51-57) feed each parsed discovery message with its sender address into the
GUI handler `on_host_discovered` (src/Client/gui.py lines 315-321), which
formats `host_name (ip)` and appends it to `discovered_hosts` only when
not already present.  JSON decoding is abstracted: a datagram either fails
to parse, or is an object carrying a `type` field and a `host_name`. -/

/-- A received discovery-port datagram, abstracting `json.loads`:
`invalid` covers anything that raises during decode/parse. -/
inductive Datagram where
  | invalid : Datagram
  | message (typ : String) (host_name : String) : Datagram

/-- `DiscoveryProtocol.parse_broadcast_message`: `None` unless the JSON
parses and its `type` field equals `"discovery"`. -/
def parse_broadcast_message : Datagram → Option String
  | .invalid => none
  | .message typ name => if typ = "discovery" then some name else none

/-- The display string `f"{host_name} ({ip})"`. -/
def displayString (name ip : String) : String :=
  name ++ " (" ++ ip ++ ")"

/-- `on_host_discovered`: append the formatted string when unseen. -/
def on_host_discovered (discovered : List String) (name ip : String) :
    List String :=
  if displayString name ip ∈ discovered then discovered
  else discovered ++ [displayString name ip]

/-- One iteration of `_discovery_loop` on a received `(data, addr)`. -/
def discoveryStep (discovered : List String) (d : Datagram × String) :
    List String :=
  match parse_broadcast_message d.1 with
  | none => discovered
  | some name => on_host_discovered discovered name d.2

/-- The discovery listener processing a whole sequence of datagrams. -/
def discoveryRun (ds : List (Datagram × String)) : List String :=
  ds.foldl discoveryStep []

theorem discoveryStep_nodup (discovered : List String)
    (d : Datagram × String) (h : discovered.Nodup) :
    (discoveryStep discovered d).Nodup := by
  rw [discoveryStep]
  cases parse_broadcast_message d.1 with
  | none => exact h
  | some name =>
      show (on_host_discovered discovered name d.2).Nodup
      unfold on_host_discovered
      by_cases hm : displayString name d.2 ∈ discovered
      · rw [if_pos hm]; exact h
      · rw [if_neg hm]
        simpa [List.nodup_append] using ⟨h, hm⟩

theorem discoveryStep_mem (discovered : List String) (d : Datagram × String)
    (s : String) :
    s ∈ discoveryStep discovered d ↔
      s ∈ discovered ∨
        ∃ name, parse_broadcast_message d.1 = some name ∧
          displayString name d.2 = s := by
  rw [discoveryStep]
  cases hp : parse_broadcast_message d.1 with
  | none => simp
  | some name =>
      show s ∈ on_host_discovered discovered name d.2 ↔ _
      unfold on_host_discovered
      by_cases hm : displayString name d.2 ∈ discovered
      · rw [if_pos hm]
        constructor
        · intro h; exact Or.inl h
        · rintro (h | ⟨n, hn, hs⟩)
          · exact h
          · obtain rfl : name = n := by simpa using hn
            rw [← hs]; exact hm
      · rw [if_neg hm]
        simp only [List.mem_append, List.mem_singleton]
        constructor
        · rintro (h | rfl)
          · exact Or.inl h
          · exact Or.inr ⟨name, rfl, rfl⟩
        · rintro (h | ⟨n, hn, hs⟩)
          · exact Or.inl h
          · obtain rfl : name = n := by simpa using hn
            exact Or.inr hs.symm

theorem discoveryRun_aux (ds : List (Datagram × String)) :
    ∀ acc : List String, acc.Nodup →
      ((ds.foldl discoveryStep acc).Nodup ∧
       ∀ s, s ∈ ds.foldl discoveryStep acc ↔
         s ∈ acc ∨ ∃ p, p ∈ ds ∧ ∃ name,
           parse_broadcast_message p.1 = some name ∧
             displayString name p.2 = s) := by
  induction ds with
  | nil => intro acc hacc; simpa using hacc
  | cons d ds ih =>
      intro acc hacc
      simp only [List.foldl_cons]
      obtain ⟨h1, h2⟩ := ih (discoveryStep acc d) (discoveryStep_nodup acc d hacc)
      refine ⟨h1, ?_⟩
      intro s
      rw [h2 s, discoveryStep_mem]
      constructor
      · rintro ((h | ⟨name, hn, hs⟩) | ⟨p, hp, name, hn, hs⟩)
        · exact Or.inl h
        · exact Or.inr ⟨d, List.mem_cons_self d ds, name, hn, hs⟩
        · exact Or.inr ⟨p, List.mem_cons_of_mem d hp, name, hn, hs⟩
      · rintro (h | ⟨p, hp, name, hn, hs⟩)
        · exact Or.inl (Or.inl h)
        · rcases List.mem_cons.mp hp with rfl | hp
          · exact Or.inl (Or.inr ⟨name, hn, hs⟩)
          · exact Or.inr ⟨p, hp, name, hn, hs⟩

/-- C7: over any sequence of received discovery datagrams, the list of
reported hosts never contains a formatted `host_name (ip)` entry twice
(each distinct pair is reported exactly once, de-duplicated by the display
string), and an entry is reported iff some datagram parsed as JSON with
`type = "discovery"` carried it — unparseable datagrams and other `type`s
never trigger a report. -/
theorem c7_discovery_dedup (ds : List (Datagram × String)) :
    (discoveryRun ds).Nodup ∧
    ∀ s, s ∈ discoveryRun ds ↔
      ∃ p, p ∈ ds ∧ ∃ name,
        parse_broadcast_message p.1 = some name ∧ displayString name p.2 = s := by
  obtain ⟨h1, h2⟩ := discoveryRun_aux ds [] List.nodup_nil
  refine ⟨h1, fun s => ?_⟩
  rw [discoveryRun, h2 s]
  simp

/-- C7, witness: the same host broadcast three times, an unparseable
datagram, and a non-discovery message yield exactly one report. -/
theorem c7_discovery_dedup_witness :
    discoveryRun
      [(.message "discovery" "Host", "10.0.0.2"),
       (.message "discovery" "Host", "10.0.0.2"),
       (.invalid, "10.0.0.9"),
       (.message "stats" "Host", "10.0.0.2"),
       (.message "discovery" "Host", "10.0.0.2")] = ["Host (10.0.0.2)"] ∧
    (discoveryRun
      [(.message "discovery" "Host", "10.0.0.2"),
       (.message "discovery" "Host", "10.0.0.2"),
       (.invalid, "10.0.0.9"),
       (.message "stats" "Host", "10.0.0.2"),
       (.message "discovery" "Host", "10.0.0.2")]).Nodup := by
  constructor
  · decide
  · exact (c7_discovery_dedup _).1

/-! ### Control-command handler

`EnhancedStreamer._handle_control_command` and `_handle_quality_change`
(src/network.py lines 101-127).  Python strings are modelled as `List
Char`; the UTF-8 decode result is an `Except` (`error` standing for a
`UnicodeDecodeError`, swallowed by the bare `except`); the serialized
stats snapshot `str(self.get_stats())` is abstracted as a parameter. -/

/-- Python `s.strip()`. -/
def pyStrip (s : List Char) : List Char :=
  ((s.dropWhile Char.isWhitespace).reverse.dropWhile Char.isWhitespace).reverse

/-- Python `s.split(sep)` for a one-character separator: splits at every
occurrence, keeping empty segments. -/
def splitChar (c : Char) : List Char → List (List Char)
  | [] => [[]]
  | x :: xs =>
    if x = c then [] :: splitChar c xs
    else
      match splitChar c xs with
      | [] => [[x]]
      | g :: gs => (x :: g) :: gs

theorem splitChar_ne_nil (c : Char) (s : List Char) : splitChar c s ≠ [] := by
  induction s with
  | nil => simp [splitChar]
  | cons x xs ih =>
      rw [splitChar]
      by_cases hx : x = c
      · simp [hx]
      · rw [if_neg hx]
        cases h : splitChar c xs with
        | nil => simp
        | cons g gs => simp

theorem splitChar_append (c : Char) (p rest : List Char)
    (hp : ∀ x ∈ p, x ≠ c) :
    splitChar c (p ++ c :: rest) = p :: splitChar c rest := by
  induction p with
  | nil => simp [splitChar]
  | cons x xs ih =>
      have hx : x ≠ c := hp x (List.mem_cons_self x xs)
      have hxs : ∀ y ∈ xs, y ≠ c := fun y hy => hp y (List.mem_cons_of_mem x hy)
      rw [List.cons_append, splitChar, if_neg hx, ih hxs]

/-- `_handle_control_command(data, addr)`: the optional reply datagram
sent back to `addr`.  The `QUALITY` branch replies with
`"QUALITY_ACK:" + command.split(':')[1]`. -/
def handle_control_command (statsReply : List Char)
    (data : Except Unit (List Char)) : Option (List Char) :=
  match data with
  | .error _ => none
  | .ok s =>
    let command := pyStrip s
    if command = "STATS".toList then some statsReply
    else if "QUALITY:".toList <+: command then
      match (splitChar ':' command).get? 1 with
      | some quality => some ("QUALITY_ACK:".toList ++ quality)
      | none => none
    else none

theorem quality_ne_stats (rest : List Char) :
    "QUALITY:".toList ++ rest ≠ "STATS".toList := by
  intro h
  have hq : "QUALITY:".toList ++ rest = 'Q' :: ("UALITY:".toList ++ rest) := rfl
  rw [hq] at h
  have hs : "STATS".toList = 'S' :: "TATS".toList := rfl
  rw [hs] at h
  injection h with h1 _
  exact absurd h1 (by decide)

/-- C8 (amended): a `"STATS"` command (stripped) is answered with the
stats snapshot; a stripped command of the form `"QUALITY:<rest>"` is
answered with `"QUALITY_ACK:<level>"` where `<level>` is the segment of
the command between the first and the second colon (Python
`command.split(':')[1]`), **not** the whole text after the first colon;
every other datagram — including one whose UTF-8 decode fails — produces
no reply and no exception. -/
theorem c8_control_amended (statsReply s rest : List Char) :
    (handle_control_command statsReply (Except.error ()) = none) ∧
    (pyStrip s = "STATS".toList →
      handle_control_command statsReply (Except.ok s) = some statsReply) ∧
    (pyStrip s = "QUALITY:".toList ++ rest →
      handle_control_command statsReply (Except.ok s) =
        some ("QUALITY_ACK:".toList ++ (splitChar ':' rest).headD [])) ∧
    (pyStrip s ≠ "STATS".toList → ¬ ("QUALITY:".toList <+: pyStrip s) →
      handle_control_command statsReply (Except.ok s) = none) := by
  refine ⟨rfl, ?_, ?_, ?_⟩
  · intro h
    simp only [handle_control_command]
    rw [h, if_pos rfl]
  · intro h
    simp only [handle_control_command]
    rw [h, if_neg (quality_ne_stats rest), if_pos (List.prefix_append _ rest)]
    have hsplit : splitChar ':' ("QUALITY:".toList ++ rest) =
        "QUALITY".toList :: splitChar ':' rest := by
      have hform : "QUALITY:".toList ++ rest = "QUALITY".toList ++ ':' :: rest := rfl
      rw [hform, splitChar_append ':' "QUALITY".toList rest (by decide)]
    rw [hsplit]
    cases hr : splitChar ':' rest with
    | nil => exact absurd hr (splitChar_ne_nil ':' rest)
    | cons g gs => simp
  · intro h1 h2
    simp only [handle_control_command]
    rw [if_neg h1, if_neg h2]

/-- C8, witness for the amended theorem: concrete commands through every
branch. -/
theorem c8_control_amended_witness :
    handle_control_command "snap".toList (Except.error ()) = none ∧
    handle_control_command "snap".toList (Except.ok "  STATS ".toList) =
      some "snap".toList ∧
    handle_control_command "snap".toList (Except.ok "QUALITY:720p60".toList) =
      some ("QUALITY_ACK:".toList ++ (splitChar ':' "720p60".toList).headD []) ∧
    ("QUALITY_ACK:".toList ++ (splitChar ':' "720p60".toList).headD []) =
      "QUALITY_ACK:720p60".toList ∧
    handle_control_command "snap".toList (Except.ok "hello".toList) = none := by
  refine ⟨?_, ?_, ?_, by decide, ?_⟩
  · exact (c8_control_amended "snap".toList "  STATS ".toList []).1
  · exact (c8_control_amended "snap".toList "  STATS ".toList []).2.1 (by decide)
  · exact (c8_control_amended "snap".toList "QUALITY:720p60".toList
      "720p60".toList).2.2.1 (by decide)
  · exact (c8_control_amended "snap".toList "hello".toList []).2.2.2
      (by decide) (by decide)

/-- C8 counterexample: for the datagram `"QUALITY:720p:extra"` the handler
replies `"QUALITY_ACK:720p"` — the text between the first and second
colon — while the claim requires `"QUALITY_ACK:720p:extra"` (all text
after the first colon). -/
theorem c8_counterexample :
    handle_control_command "snap".toList (Except.ok "QUALITY:720p:extra".toList) =
      some "QUALITY_ACK:720p".toList ∧
    some "QUALITY_ACK:720p".toList ≠
      (some "QUALITY_ACK:720p:extra".toList : Option (List Char)) := by
  constructor <;> decide

/-! ### Input senders and coordinate scaling

Two divergent variants exist in the repository.
`CrossPlatformInputSender` in src/Client/input.py stores `(scale_x,
scale_y)` set by `set_scaling` (lines 45-48) and has a
`_scale_coordinates` helper (lines 50-54) that multiplies by them — but
its mouse handlers (`_on_mouse_move` lines 100-111, `_on_mouse_click`,
`_on_mouse_scroll`) serialize the **raw** listener coordinates and never
call the helper.  The `CrossPlatformInputSender` in src/client.py stores
the four resolutions instead and its handlers (lines 455-511) do scale,
via `int(x * stream_width / display_width)` guarded by positive display
dimensions (`_scale_coordinates`, lines 397-403).

Python `int()` on a float truncates toward zero; the float quotient of
these integer operands is modelled as the exact rational quotient. -/

/-- Python `int()` applied to a (modelled-as-rational) float: truncation
toward zero. -/
def pyTrunc (q : ℚ) : Int :=
  if q < 0 then ⌈q⌉ else ⌊q⌋

theorem pyTrunc_intCast (n : Int) : pyTrunc (n : ℚ) = n := by
  unfold pyTrunc
  by_cases h : (n : ℚ) < 0
  · rw [if_pos h, Int.ceil_intCast]
  · rw [if_neg h, Int.floor_intCast]

/-- The serialized fields of a mouse `InputEvent` datagram (the
`timestamp` field carries wall-clock time and is not modelled). -/
structure InputEvent where
  etype : String
  action : String
  x : Int
  y : Int
  button : Option String := none
  dx : Option Int := none
  dy : Option Int := none

namespace ClientInput

/-- The scaling-relevant state of src/Client/input.py's sender. -/
structure SenderState where
  scale_x : ℚ := 1
  scale_y : ℚ := 1

/-- `set_scaling` (src/Client/input.py lines 45-48). -/
def set_scaling (s : SenderState)
    (display_width display_height stream_width stream_height : Int) :
    SenderState :=
  { s with
    scale_x := (display_width : ℚ) / (stream_width : ℚ),
    scale_y := (display_height : ℚ) / (stream_height : ℚ) }

/-- `_scale_coordinates` (lines 50-54): defined but never invoked by the
event handlers. -/
def scale_coordinates (s : SenderState) (x y : Int) : Int × Int :=
  (pyTrunc ((x : ℚ) * s.scale_x), pyTrunc ((y : ℚ) * s.scale_y))

/-- `_on_mouse_move` (lines 100-111): the event carries the raw `x, y`. -/
def on_mouse_move (_s : SenderState) (x y : Int) : InputEvent :=
  { etype := "mouse", action := "move", x := x, y := y }

/-- `_on_mouse_click` (lines 113-125): raw `x, y`. -/
def on_mouse_click (_s : SenderState) (x y : Int) (button : String)
    (pressed : Bool) : InputEvent :=
  { etype := "mouse", action := if pressed then "press" else "release",
    button := some button, x := x, y := y }

/-- `_on_mouse_scroll` (lines 127-138): raw `x, y`. -/
def on_mouse_scroll (_s : SenderState) (x y dx dy : Int) : InputEvent :=
  { etype := "mouse", action := "scroll", x := x, y := y,
    dx := some dx, dy := some dy }

end ClientInput

namespace ClientPy

/-- The scaling-relevant state of src/client.py's sender, with the
constructor defaults of lines 378-381. -/
structure SenderState where
  display_width : Int := 1920
  display_height : Int := 1080
  stream_width : Int := 1280
  stream_height : Int := 720

/-- `set_scaling` (src/client.py lines 389-395). -/
def set_scaling (s : SenderState)
    (display_width display_height stream_width stream_height : Int) :
    SenderState :=
  { s with
    display_width := display_width, display_height := display_height,
    stream_width := stream_width, stream_height := stream_height }

/-- `_scale_coordinates` (src/client.py lines 397-403). -/
def scale_coordinates (s : SenderState) (x y : Int) : Int × Int :=
  if 0 < s.display_width ∧ 0 < s.display_height then
    (pyTrunc (((x * s.stream_width : Int) : ℚ) / (s.display_width : ℚ)),
     pyTrunc (((y * s.stream_height : Int) : ℚ) / (s.display_height : ℚ)))
  else (x, y)

/-- `_on_mouse_move` (src/client.py lines 455-472): scaled coordinates. -/
def on_mouse_move (s : SenderState) (x y : Int) : InputEvent :=
  { etype := "mouse", action := "move",
    x := (scale_coordinates s x y).1, y := (scale_coordinates s x y).2 }

/-- `_on_mouse_click` (lines 474-492): scaled coordinates. -/
def on_mouse_click (s : SenderState) (x y : Int) (button : String)
    (pressed : Bool) : InputEvent :=
  { etype := "mouse", action := if pressed then "press" else "release",
    button := some button,
    x := (scale_coordinates s x y).1, y := (scale_coordinates s x y).2 }

/-- `_on_mouse_scroll` (lines 494-511): scaled coordinates. -/
def on_mouse_scroll (s : SenderState) (x y dx dy : Int) : InputEvent :=
  { etype := "mouse", action := "scroll",
    x := (scale_coordinates s x y).1, y := (scale_coordinates s x y).2,
    dx := some dx, dy := some dy }

end ClientPy

/-- C5: after every `set_scaling(displayWidth, displayHeight, streamWidth,
streamHeight)` call with positive dimensions, the stored factors are
exactly `displayWidth/streamWidth` and `displayHeight/streamHeight`, and
repeating the call with the same arguments leaves the scaling state
identical (idempotence). -/
theorem c5_set_scaling (s : ClientInput.SenderState) (dw dh sw sh : Int)
    (_hdw : 0 < dw) (_hdh : 0 < dh) (_hsw : 0 < sw) (_hsh : 0 < sh) :
    (ClientInput.set_scaling s dw dh sw sh).scale_x = (dw : ℚ) / (sw : ℚ) ∧
    (ClientInput.set_scaling s dw dh sw sh).scale_y = (dh : ℚ) / (sh : ℚ) ∧
    ClientInput.set_scaling (ClientInput.set_scaling s dw dh sw sh) dw dh sw sh
      = ClientInput.set_scaling s dw dh sw sh :=
  ⟨rfl, rfl, rfl⟩

/-- C5, witness at a 1920x1080 display streaming 1280x720. -/
theorem c5_set_scaling_witness :
    ((0 : Int) < 1920 ∧ (0 : Int) < 1280) ∧
    (ClientInput.set_scaling {} 1920 1080 1280 720).scale_x
      = (1920 : ℚ) / (1280 : ℚ) ∧
    ClientInput.set_scaling
        (ClientInput.set_scaling {} 1920 1080 1280 720) 1920 1080 1280 720
      = ClientInput.set_scaling {} 1920 1080 1280 720 := by
  refine ⟨⟨by decide, by decide⟩, ?_, ?_⟩
  · exact (c5_set_scaling {} 1920 1080 1280 720
      (by decide) (by decide) (by decide) (by decide)).1
  · exact (c5_set_scaling {} 1920 1080 1280 720
      (by decide) (by decide) (by decide) (by decide)).2.2

/-- C3 (amended): in the src/Client/input.py sender the `x`/`y` fields of
every serialized mouse event equal the **raw** pointer coordinates — the
stored scaling factors are never applied — while in the src/client.py
variant (with positive display dimensions) they equal
`int(coord * streamDimension / displayDimension)`. -/
theorem c3_raw_coordinates_amended (s : ClientInput.SenderState)
    (t : ClientPy.SenderState) (x y dx dy : Int) (b : String) (p : Bool)
    (hw : 0 < t.display_width) (hh : 0 < t.display_height) :
    ((ClientInput.on_mouse_move s x y).x = x ∧
     (ClientInput.on_mouse_move s x y).y = y ∧
     (ClientInput.on_mouse_click s x y b p).x = x ∧
     (ClientInput.on_mouse_click s x y b p).y = y ∧
     (ClientInput.on_mouse_scroll s x y dx dy).x = x ∧
     (ClientInput.on_mouse_scroll s x y dx dy).y = y) ∧
    ((ClientPy.on_mouse_move t x y).x =
        pyTrunc (((x * t.stream_width : Int) : ℚ) / (t.display_width : ℚ)) ∧
     (ClientPy.on_mouse_move t x y).y =
        pyTrunc (((y * t.stream_height : Int) : ℚ) / (t.display_height : ℚ))) := by
  refine ⟨⟨rfl, rfl, rfl, rfl, rfl, rfl⟩, ?_, ?_⟩
  · show (ClientPy.scale_coordinates t x y).1 = _
    unfold ClientPy.scale_coordinates
    rw [if_pos ⟨hw, hh⟩]
  · show (ClientPy.scale_coordinates t x y).2 = _
    unfold ClientPy.scale_coordinates
    rw [if_pos ⟨hw, hh⟩]

/-- C3, witness for the amended theorem at concrete coordinates. -/
theorem c3_raw_coordinates_amended_witness :
    (ClientInput.on_mouse_move {} 100 200).x = 100 ∧
    ((0 : Int) < 1920 ∧ (0 : Int) < 1080) ∧
    (ClientPy.on_mouse_move {} 100 200).x =
      pyTrunc (((100 * 1280 : Int) : ℚ) / ((1920 : Int) : ℚ)) := by
  refine ⟨?_, ⟨by decide, by decide⟩, ?_⟩
  · exact (c3_raw_coordinates_amended {} {} 100 200 0 0 "left" true
      (by decide) (by decide)).1.1
  · exact (c3_raw_coordinates_amended {} {} 100 200 0 0 "left" true
      (by decide) (by decide)).2.1

/-- C3 counterexample: with `scaleX = scaleY = 1/2` configured via
`set_scaling(100, 100, 200, 200)`, the src/Client/input.py sender
transmits the mouse-move coordinates `x = 100, y = 200` unchanged, while
the claim requires the rescaled `int(100 * 0.5) = 50`. -/
theorem c3_counterexample :
    (ClientInput.set_scaling {} 100 100 200 200).scale_x = (1 : ℚ) / 2 ∧
    (ClientInput.on_mouse_move
      (ClientInput.set_scaling {} 100 100 200 200) 100 200).x = 100 ∧
    pyTrunc ((100 : ℚ) * (ClientInput.set_scaling {} 100 100 200 200).scale_x)
      = 50 ∧
    (100 : Int) ≠ 50 := by
  refine ⟨by norm_num [ClientInput.set_scaling], rfl, ?_, by decide⟩
  have h1 : (100 : ℚ) * (ClientInput.set_scaling {} 100 100 200 200).scale_x
      = ((50 : Int) : ℚ) := by
    norm_num [ClientInput.set_scaling]
  rw [h1, pyTrunc_intCast]

/-- C10: the src/client.py `_scale_coordinates` is total — whenever
`display_width <= 0` or `display_height <= 0` the guard fails and the
input coordinates are returned unchanged, with no division attempted. -/
theorem c10_scale_coordinates_guard (s : ClientPy.SenderState) (x y : Int)
    (h : s.display_width ≤ 0 ∨ s.display_height ≤ 0) :
    ClientPy.scale_coordinates s x y = (x, y) := by
  have hc : ¬ (0 < s.display_width ∧ 0 < s.display_height) := by
    rcases h with h | h
    · rintro ⟨h1, _⟩; omega
    · rintro ⟨_, h2⟩; omega
  unfold ClientPy.scale_coordinates
  rw [if_neg hc]

/-- C10, witness: an unconfigured zero-width display leaves coordinates
untouched. -/
theorem c10_scale_coordinates_guard_witness :
    ((0 : Int) ≤ 0 ∨ (720 : Int) ≤ 0) ∧
    ClientPy.scale_coordinates
      { display_width := 0, display_height := 1080,
        stream_width := 1280, stream_height := 720 } 5 7 = (5, 7) :=
  ⟨Or.inl (by decide),
   c10_scale_coordinates_guard
     { display_width := 0, display_height := 1080,
       stream_width := 1280, stream_height := 720 } 5 7 (Or.inl (by decide))⟩

/-! ### Capture frame retrieval

`CrossPlatformCapture.get_frame` (src/Capture.py lines 263-270):

    try:
        while not self.frame_queue.empty():
            frame = self.frame_queue.get_nowait()
        return frame
    except queue.Empty:
        return None

With the consumer as sole reader, `get_nowait` after a `not empty` check
never raises, so the `except queue.Empty` branch is unreachable; when the
queue starts out empty the loop body never runs, the local `frame` is
never bound, and `return frame` raises `UnboundLocalError` — which
`except queue.Empty` does not catch. -/

namespace Capture

/-- The drain loop: `frame` is the optional local variable, `none` while
never assigned. -/
def drainLoop : List α → Option α → Option α
  | [], frame => frame
  | f :: rest, _ => drainLoop rest (some f)

/-- `CrossPlatformCapture.get_frame` on the queue contents: `Except.error`
models the uncaught exception escaping the call. -/
def get_frame (q : List α) : Except String (Option α) :=
  match drainLoop q none with
  | some f => Except.ok (some f)
  | none => Except.error "UnboundLocalError"

end Capture

/-- C9: calling `get_frame` while the internal frame queue is empty (in
particular before any frame was captured) raises — modelled as
`Except.error` — instead of returning `None`, despite the declared
`Optional` return type. -/
theorem c9_get_frame_empty_raises :
    Capture.get_frame ([] : List Nat) = Except.error "UnboundLocalError" := rfl

/-- C2 counterexample: the push pattern `if not q.full(): q.put_nowait(x)`
with capacity 2 receiving pushes `1, 2, 3` leaves the queue holding
`[1, 2]` — the earliest two items — not the most-recently-pushed two
`[2, 3]` the claim requires. -/
theorem c2_counterexample :
    queuePushAll 2 ([] : List Nat) [1, 2, 3] = [1, 2] ∧
    queuePushAll 2 ([] : List Nat) [1, 2, 3] ≠ [2, 3] := by
  constructor <;> decide

/-- C2 (amended): a push into a full queue never blocks — it returns with
the queue unchanged, discarding the **new** item — and after any sequence
of pushes into an initially empty queue the queue holds exactly the
**earliest**-pushed `N` items (`N` = capacity), newest discarded on
overflow. -/
theorem c2_drop_queue_amended (cap : Nat) (q : List Nat) (x : Nat)
    (xs : List Nat) (hfull : cap ≤ q.length) :
    queuePush cap q x = q ∧ queuePushAll cap [] xs = xs.take cap :=
  ⟨queuePush_of_full cap q x hfull, queuePushAll_nil cap xs⟩

/-- C2, witness for the amended theorem at capacity 2. -/
theorem c2_drop_queue_amended_witness :
    2 ≤ [7, 8].length ∧ queuePush 2 [7, 8] 9 = [7, 8] ∧
    queuePushAll 2 ([] : List Nat) [1, 2, 3, 4] = [1, 2] := by
  refine ⟨by decide, ?_, ?_⟩
  · exact (c2_drop_queue_amended 2 [7, 8] 9 [1, 2, 3, 4] (by decide)).1
  · exact (c2_drop_queue_amended 2 [7, 8] 9 [1, 2, 3, 4] (by decide)).2

end ScreenStream
